import Mathlib

/-!
Verification of `rendernode.py` (Minecraft Overviewer render-job distributor).

The source is Python 2 code (it imports `cPickle`, uses `xrange` and bound
`iter(it).next`, and has no `from __future__ import division`), so the `/`
operator applied to two `int` operands is floor division, exactly like `//`.
Machine integers are unbounded Python ints, modelled by `Nat`/`Int`.
-/

set_option maxHeartbeats 1000000
set_option maxRecDepth 8000

namespace RN

/-- Python 2 `//` on non-negative ints: floor division. -/
def floordiv (a b : Nat) : Nat := a / b

/-- Python 2 `/` on non-negative ints: since the source has no
`from __future__ import division`, this is also floor division. -/
def py2div (a b : Nat) : Nat := a / b

/-- A field of a Python job list: jobs are Python lists whose element 0 is a
reference to a quadtree object (identified here by its `_render_index`), the
remaining fields being ints (coordinates) or strings (paths/names). -/
inductive PyVal where
  | qtreeRef (renderIndex : Nat)
  | intVal (n : Int)
  | strVal (s : String)
deriving DecidableEq, Repr

/-- A job as produced by `q.get_worldtiles()` / `q.get_innertiles(zoom)`:
a Python list of fields. -/
abbrev Job := List PyVal

/-- Effect on a job object of the statement `job[0] = job[0]._render_index`
(rendernode.py lines 254 and 279): field 0, a quadtree reference, is replaced
in place by the quadtree's integer render index.  (If field 0 were not a
quadtree reference the source would raise `AttributeError`; jobs produced by
the generators always carry the quadtree reference in field 0.) -/
def fixupJob : Job → Job
  | PyVal.qtreeRef i :: rest => PyVal.intVal (Int.ofNat i) :: rest
  | job => job

/-- The batching loop body's effect on one job (rendernode.py lines 252-256):
`job[0] = job[0]._render_index` assigns through the reference, mutating the
list object the generator yielded, and `batch.append(job)` appends that same
object.  Returns (state of the original job object after the body, entry
appended to the batch). -/
def dispatchJobStep (job : Job) : Job × Job := (fixupJob job, fixupJob job)

/-- `roundrobin` recipe (rendernode.py lines 64-75), George Sakkis' recipe:
cycle over the iterators, yielding one element from each in turn; when an
iterator is exhausted it is removed and the cycle continues with the
remaining ones, starting from the iterator after the exhausted one.
The state is the list of iterators in cycle order starting at the current
position: yield the head of the first iterator and rotate it to the back;
an exhausted iterator is dropped. -/
def roundrobinAux : List (List α) → List α
  | [] => []
  | [] :: rest => roundrobinAux rest
  | (x :: xs) :: rest => x :: roundrobinAux (rest ++ [xs])
termination_by its => (its.map List.length).sum + its.length
decreasing_by
  all_goals simp [List.map_append, List.sum_append]
  omega

/-- `roundrobin(iterables)` (rendernode.py lines 64-75). -/
def roundrobin (iterables : List (List α)) : List α := roundrobinAux iterables

/-- The batching state machine of `_apply_render_worldtiles` /
`_apply_render_inntertile` (rendernode.py lines 248-263, 273-289):
`batch.append(job); jobcount += 1; if jobcount >= batch_size: yield batch`
and a final short batch if `jobcount > 0`. -/
def batchAux (bs : Nat) : List α → List α → Nat → List (List α)
  | [], batch, jobcount => if 0 < jobcount then [batch] else []
  | j :: js, batch, jobcount =>
    if jobcount + 1 ≥ bs then (batch ++ [j]) :: batchAux bs js [] 0
    else batchAux bs js (batch ++ [j]) (jobcount + 1)

/-- Group a job stream into batches of size `bs` (final batch possibly short). -/
def batcher (bs : Nat) (jobs : List α) : List (List α) := batchAux bs jobs [] 0

/-- The loop `while batch_size < 10: batch_size *= 2` (rendernode.py 144-145).
For `b = 0` the source loop would not terminate; that case is unreachable
because `RenderNode.__init__` requires at least one quadtree, so the loop is
entered with `b = 4 * len(quadtrees) >= 4`.  We return 0 there. -/
def doubleUntil (b : Nat) : Nat :=
  if _h : b < 10 then
    if _h0 : b = 0 then 0 else doubleUntil (2 * b)
  else b
termination_by 10 - b
decreasing_by omega

/-- `batch_size = 4*len(quadtrees); while batch_size < 10: batch_size *= 2`
(rendernode.py lines 143-145). -/
def batchSize (quadtreeCount : Nat) : Nat := doubleUntil (4 * quadtreeCount)

/-!
The scheduler (`RenderNode.go`, rendernode.py lines 108-214).

Observable actions are modelled as an event trace.  A pending handle is
modelled by the count its batch-execution function returns (the handle's
`get()` yields exactly that count; runs where a worker raises are outside
this model, which is the hypothesis of the claims that use it).  The choice
of pool (`FakePool` for `procs == 1`, `multiprocessing.Pool` otherwise,
lines 113-120) affects only where the batch function executes, not the
sequence of scheduler events modelled here; `pool.map(bool, ...)` warm-up
and the per-quadtree `q.go(procs)` initialization are external operations
with no scheduler-visible effect.
-/

/-- Observable scheduler actions. -/
inductive Event where
  | submit (size : Nat)
  | resolve (count : Nat)
  | poolClose
  | poolJoin
  | renderRoot (idx : Nat)
deriving DecidableEq, Repr

/-- The mutable state of the result-draining loops: the pending-handle deque
`results` (each handle recorded as the count its `get()` returns), the
`complete` counter, the `timestamp` of the last timed-drain reset, and the
trace of events so far. -/
structure DrainState where
  results : List Nat
  complete : Nat
  timestamp : Nat
  events : List Event
deriving DecidableEq, Repr

def initState : DrainState := ⟨[], 0, 0, []⟩

/-- Successive readings of `time.time()`, supplied by the environment; an
exhausted reading list reads as 0 (a constant clock). -/
structure Clock where
  readings : List Nat
deriving DecidableEq, Repr

def Clock.read : Clock → Nat × Clock
  | ⟨[]⟩ => (0, ⟨[]⟩)
  | ⟨t :: ts⟩ => (t, ⟨ts⟩)

/-- `render_worldtile_batch` (rendernode.py 291-314): `count` starts at 0 and
is incremented once per job; the per-job work (`_get_chunks_in_range`,
`quadtree.render_worldtile`) is external rendering with no effect on the
returned value.  Returns `count`. -/
def render_worldtile_batch (batch : List Job) : Nat :=
  batch.foldl (fun count _ => count + 1) 0

/-- `render_innertile_batch` (rendernode.py 316-327): same counting loop,
invoking `quadtree.render_innertile` per job. -/
def render_innertile_batch (batch : List Job) : Nat :=
  batch.foldl (fun count _ => count + 1) 0

/-- Submission of one batch and receipt of its handle:
`yield pool.apply_async(...)` in the generator followed by
`results.append(result)` in the driving loop (lines 260/263/285/289
and 148/185). -/
def pushHandle (runBatch : List Job → Nat) (batch : List Job) (st : DrainState) :
    DrainState :=
  { st with results := st.results ++ [runBatch batch],
            events := st.events ++ [Event.submit batch.length] }

/-- `complete += results.popleft().get()` (with its status-line print, which
emits no modelled event).  Every call site guards non-emptiness, so the `[]`
case is unreachable; it is mapped to the identity. -/
def popResolve (st : DrainState) : DrainState :=
  match st.results with
  | [] => st
  | c :: rest =>
    { st with results := rest, complete := st.complete + c,
              events := st.events ++ [Event.resolve c] }

/-- `while count_to_remove > 0: count_to_remove -= 1; complete += results.popleft().get()`. -/
def popResolveN : Nat → DrainState → DrainState
  | 0, st => st
  | n + 1, st => popResolveN n (popResolve st)

/-- The per-second drain (rendernode.py 150-158 and 187-195):
if `timestamp2 >= timestamp + 1`, reset the timestamp, and if
`1000//batch_size < len(results)`, resolve that many oldest handles;
otherwise resolve nothing. -/
def timedDrain (bs : Nat) (st : DrainState) (t2 : Nat) : DrainState :=
  if st.timestamp + 1 ≤ t2 then
    if floordiv 1000 bs < st.results.length then
      popResolveN (floordiv 1000 bs) { st with timestamp := t2 }
    else { st with timestamp := t2 }
  else st

/-- `while len(results) > target: complete += results.popleft().get()`. -/
def drainTo (target : Nat) (st : DrainState) : DrainState :=
  if h : target < st.results.length then drainTo target (popResolve st) else st
termination_by st.results.length
decreasing_by
  cases hr : st.results with
  | nil => rw [hr] at h; simp at h
  | cons c rest => simp [popResolve, hr]

/-- Size-based drain trigger of the base-level loop, `10000//batch_size`
(line 159). -/
def baseDrainTrigger (bs : Nat) : Nat := floordiv 10000 bs

/-- Size-based drain target of the base-level loop, `500//batch_size`
(line 162). -/
def baseDrainTarget (bs : Nat) : Nat := floordiv 500 bs

/-- Size-based drain trigger of the inner-level loop, `10000/batch_size`
(line 196; Python 2 `/` on ints). -/
def innerDrainTrigger (bs : Nat) : Nat := py2div 10000 bs

/-- Size-based drain target of the inner-level loop, `500/batch_size`
(line 197; Python 2 `/` on ints). -/
def innerDrainTarget (bs : Nat) : Nat := py2div 500 bs

/-- `if len(results) > trigger: while len(results) > target: ... popleft().get()`
(lines 159-164 and 196-199). -/
def sizeDrain (trigger target : Nat) (st : DrainState) : DrainState :=
  if trigger < st.results.length then drainTo target st else st

/-- One iteration of a level's result loop: append the new handle, then the
timed drain, then the size-based drain. -/
def levelIter (bs trigger target : Nat) (runBatch : List Job → Nat)
    (batch : List Job) (st : DrainState) (t2 : Nat) : DrainState :=
  sizeDrain trigger target (timedDrain bs (pushHandle runBatch batch st) t2)

/-- The `for result in self._apply_render_...` loop of a level; each iteration
reads `time.time()` once. -/
def runLevelLoop (bs trigger target : Nat) (runBatch : List Job → Nat) :
    List (List Job) → DrainState → Clock → DrainState × Clock
  | [], st, ck => (st, ck)
  | b :: bs2, st, ck =>
    let r := Clock.read ck
    runLevelLoop bs trigger target runBatch bs2
      (levelIter bs trigger target runBatch b st r.1) r.2

/-- A quadtree (pyramid) as the scheduler sees it: depth `p`, the assigned
`_render_index`, and the lazy job sequences produced by the external
collaborators `get_worldtiles()` and `get_innertiles(zoom)`. -/
structure Quadtree where
  p : Nat
  renderIndex : Nat := 0
  worldtiles : List Job
  innertiles : Nat → List Job

/-- `i = 0; for q in quadtrees: q._render_index = i; i += 1`
(rendernode.py 88-91). -/
def assignIndicesFrom (i : Nat) : List Quadtree → List Quadtree
  | [] => []
  | q :: qs => { q with renderIndex := i } :: assignIndicesFrom (i + 1) qs

def assignRenderIndices (qts : List Quadtree) : List Quadtree :=
  assignIndicesFrom 0 qts

/-- `if batch_size < len(self.quadtrees): batch_size = len(self.quadtrees)`
(lines 246-247 and 271-272). -/
def effBatchSize (bs n : Nat) : Nat := if bs < n then n else bs

/-- `_apply_render_worldtiles` (rendernode.py 242-263): round-robin the
worldtile job streams, rewrite each job's field 0 to the render index, and
batch; yields one handle per batch. -/
def applyRenderWorldtiles (bs : Nat) (qts : List Quadtree) : List (List Job) :=
  batcher (effBatchSize bs qts.length)
    ((roundrobin (qts.map Quadtree.worldtiles)).map fixupJob)

/-- `_apply_render_inntertile` (rendernode.py 265-289): same for the
innertile streams of the quadtrees with `zoom <= q.p`. -/
def applyRenderInnertiles (bs zoom : Nat) (qts : List Quadtree) : List (List Job) :=
  batcher (effBatchSize bs qts.length)
    ((roundrobin ((qts.filter (fun q => zoom ≤ q.p)).map
      (fun q => q.innertiles zoom))).map fixupJob)

/-- The base-level pass (rendernode.py 146-171): read the initial timestamp,
run the result loop over the worldtile batches, then drain the queue to
empty (`while len(results) > 0`). -/
def goWorldLevel (bs : Nat) (qts : List Quadtree) (st : DrainState) (ck : Clock) :
    DrainState × Clock :=
  let r := Clock.read ck
  let out := runLevelLoop bs (baseDrainTrigger bs) (baseDrainTarget bs)
    render_worldtile_batch (applyRenderWorldtiles bs qts)
    { st with timestamp := r.1 } r.2
  (drainTo 0 out.1, out.2)

/-- One inner-level pass (rendernode.py 176-205): reset `complete`, read the
timestamp, run the result loop over the innertile batches for this zoom,
then drain to empty. -/
def goInnerLevel (bs zoom : Nat) (qts : List Quadtree) (st : DrainState)
    (ck : Clock) : DrainState × Clock :=
  let r := Clock.read ck
  let out := runLevelLoop bs (innerDrainTrigger bs) (innerDrainTarget bs)
    render_innertile_batch (applyRenderInnertiles bs zoom qts)
    { st with complete := 0, timestamp := r.1 } r.2
  (drainTo 0 out.1, out.2)

/-- `for zoom in xrange(self.max_p-1, 0, -1)` driving the inner-level passes. -/
def goInnerLoop (bs : Nat) (qts : List Quadtree) :
    List Nat → DrainState → Clock → DrainState × Clock
  | [], st, ck => (st, ck)
  | z :: zs, st, ck =>
    let out := goInnerLevel bs z qts st ck
    goInnerLoop bs qts zs out.1 out.2

/-- `max_p` computation (rendernode.py 125-130). -/
def maxP (qts : List Quadtree) : Nat :=
  qts.foldl (fun m q => if m < q.p then q.p else m) 0

/-- `xrange(max_p - 1, 0, -1)` = `[max_p-1, ..., 1]`. -/
def zoomList (maxp : Nat) : List Nat :=
  ((List.range (maxp - 1)).reverse).map (fun i => i + 1)

/-- `RenderNode.go` (rendernode.py 108-214) as an event trace: assign render
indices, compute the batch size, run the base-level pass and the inner-level
passes, close and join the pool, then render each quadtree's root tile
(`q.render_innertile(..., "base")`) directly in the scheduler, one per
quadtree in order. -/
def go (qts : List Quadtree) (ck : Clock) : List Event :=
  let qts1 := assignRenderIndices qts
  let bs := batchSize qts1.length
  let w := goWorldLevel bs qts1 initState ck
  let inr := goInnerLoop bs qts1 (zoomList (maxP qts1)) w.1 w.2
  inr.1.events ++ [Event.poolClose, Event.poolJoin]
    ++ qts1.map (fun q => Event.renderRoot q.renderIndex)

def isSubmit : Event → Bool
  | .submit _ => true
  | _ => false

def isResolve : Event → Bool
  | .resolve _ => true
  | _ => false

def countSubmits (tr : List Event) : Nat := (tr.filter isSubmit).length

def countResolves (tr : List Event) : Nat := (tr.filter isResolve).length

/-- Trace bookkeeping invariant: every submitted handle not yet resolved sits
in the queue. -/
def Inv (st : DrainState) : Prop :=
  countSubmits st.events = countResolves st.events + st.results.length

/-- Events an operation may append without touching root renders or pool
shutdown. -/
def SchedEv (e : Event) : Prop := isSubmit e = true ∨ isResolve e = true

/-!
The two pool implementations (C6).  Batch functions that may fail are
modelled as `Except`-valued; "raises" is an `error` value, and a raise
propagates to whichever call forces the computation.
-/

/-- `FakeResult` (rendernode.py 329-333): wraps an already-computed value. -/
structure FakeResult (α : Type) where
  res : α

/-- `FakeResult.get` (rendernode.py 332-333): returns the stored value; it
performs no computation and can never raise. -/
def FakeResult.get (ε : Type) {α : Type} (r : FakeResult α) : Except ε α :=
  Except.ok r.res

/-- `FakePool.apply_async` (rendernode.py 334-341): runs `func(*args)`
synchronously inside the call, then wraps the returned value in a
`FakeResult`.  A failure raised by `func` therefore escapes `apply_async`
itself — no handle is produced — which is why the submission, not the
handle, carries the `Except`. -/
def fakePool_apply_async {ε α β : Type} (func : β → Except ε α) (args : β) :
    Except ε (FakeResult α) :=
  (func args).map FakeResult.mk

/-- Modelled from the spec: the concurrent pool's `apply_async`
(`multiprocessing.Pool`, an external library; spec section 4.3 / 4.5):
submission is non-blocking and always returns a handle; a worker failure is
stored in the handle and re-raised only when the handle is resolved. -/
structure AsyncResult (ε α : Type) where
  outcome : Except ε α

/-- Modelled from the spec: `AsyncResult.get` re-raises the worker's failure
or returns its value. -/
def AsyncResult.get {ε α : Type} (r : AsyncResult ε α) : Except ε α := r.outcome

/-- Modelled from the spec: concurrent-pool submission: the batch function
runs in a worker; its outcome (value or failure) is captured in the handle. -/
def poolApplyAsync {ε α β : Type} (func : β → Except ε α) (args : β) :
    AsyncResult ε α :=
  ⟨func args⟩

/-!
Source-chunk resolution, `RenderNode._get_chunks_in_range`
(rendernode.py 217-238; C7).  Python ints are `Int`; Python `//` on ints is
flooring division (`Int.fdiv`) and Python `%` has the divisor's sign
(`Int.emod`, Lean's `%` on `Int`). -/

/-- The 4-tuple stored in `world.regionfiles` for a region coordinate, as the
function consumes it: `_, _, c, mcr = get_region(key, (None,None,None,None))`.
A missing key yields the default, modelled as `c = none` (in that case `mcr`
is never consulted: `c is not None and mcr.chunkExists(...)` short-circuits). -/
structure RegionEntry where
  c : Option String
  chunkExists : Int → Int → Bool

/-- The external source dataset (`self.world`): coordinate unconversion and
the region-file lookup with its dict-`get` default already applied. -/
structure World where
  unconvert_coords : Int → Int → Int × Int
  regionfiles : Int × Int → RegionEntry

/-- Python `xrange(a, b)`: the ints from `a` (inclusive) to `b` (exclusive). -/
def intRange (a b : Int) : List Int :=
  (List.range (b - a).toNat).map (fun (i : Nat) => a + (i : Int))

/-- The body of the inner loop of `_get_chunks_in_range` for one (row, col)
pair: skip unless `row % 2 == col % 2`, unconvert to chunk coordinates, look
up the region of `(chunkx//32, chunky//32)` and keep the tuple
`(col, row, chunkx, chunky, c)` only if the region path is present and the
region reports the chunk as existing. -/
def chunkCell (w : World) (row col : Int) : Option (Int × Int × Int × Int × String) :=
  if row % 2 ≠ col % 2 then none
  else
    let xy := w.unconvert_coords col row
    let e := w.regionfiles (Int.fdiv xy.1 32, Int.fdiv xy.2 32)
    match e.c with
    | some cpath =>
      if e.chunkExists xy.1 xy.2 then some (col, row, xy.1, xy.2, cpath) else none
    | none => none

/-- One pass of the inner `for col in xrange(colstart, colend+1)` loop. -/
def chunkRow (w : World) (colstart colend row : Int) :
    List (Int × Int × Int × Int × String) :=
  (intRange colstart (colend + 1)).filterMap (chunkCell w row)

/-- `RenderNode._get_chunks_in_range` (rendernode.py 217-238): the nested
loops `for row in xrange(rowstart-16, rowend+1)`, `for col in
xrange(colstart, colend+1)`, appending the kept tuples in order. -/
def get_chunks_in_range (w : World) (colstart colend rowstart rowend : Int) :
    List (Int × Int × Int × Int × String) :=
  ((intRange (rowstart - 16) (rowend + 1)).map (chunkRow w colstart colend)).flatten

/-- A concrete world for witnesses: identity unconversion, all chunks
present. -/
def wTest : World :=
  ⟨fun c r => (c, r), fun _ => ⟨some "r.mcr", fun _ _ => true⟩⟩

/-- A concrete quadtree for witnesses: depth 1, no jobs. -/
def qtTest : Quadtree :=
  ⟨1, 0, [], fun _ => []⟩

/-! Basic lemmas about the combinators. -/

theorem roundrobinAux_length (n : Nat) :
    ∀ its : List (List α), (its.map List.length).sum + its.length ≤ n →
      (roundrobinAux its).length = (its.map List.length).sum := by
  induction n with
  | zero =>
    intro its h
    match its with
    | [] => simp [roundrobinAux]
    | _ :: _ => simp at h
  | succ n ih =>
    intro its h
    match its with
    | [] => simp [roundrobinAux]
    | [] :: rest =>
      simp only [roundrobinAux]
      have := ih rest (by simp at h ⊢; omega)
      simpa using this
    | (x :: xs) :: rest =>
      simp only [roundrobinAux, List.length_cons]
      have := ih (rest ++ [xs]) (by simp at h ⊢; omega)
      simp [List.sum_append] at this ⊢
      omega

theorem roundrobin_length (its : List (List α)) :
    (roundrobin its).length = (its.map List.length).sum :=
  roundrobinAux_length ((its.map List.length).sum + its.length) its (Nat.le_refl _)

theorem roundrobin_single (xs : List α) : roundrobin [xs] = xs := by
  induction xs with
  | nil => simp [roundrobin, roundrobinAux]
  | cons x xs ih =>
    simp only [roundrobin, roundrobinAux, List.nil_append]
    simpa [roundrobin] using ih

theorem batchAux_flatten (bs : Nat) :
    ∀ (js batch : List α), (batchAux bs js batch batch.length).flatten = batch ++ js := by
  intro js
  induction js with
  | nil =>
    intro batch
    by_cases h : 0 < batch.length
    · simp [batchAux, h]
    · have : batch = [] := by
        cases batch with
        | nil => rfl
        | cons a l => simp at h
      simp [batchAux, this]
  | cons j js ih =>
    intro batch
    by_cases h : batch.length + 1 ≥ bs
    · have h2 := ih ([] : List α)
      simp only [batchAux, h, if_pos]
      simp only [List.length_nil] at h2
      simp [h2]
    · have h2 := ih (batch ++ [j])
      simp only [List.length_append, List.length_cons, List.length_nil,
        Nat.zero_add] at h2
      simp only [batchAux, h, if_neg, not_false_iff]
      simpa using h2

theorem batcher_flatten (bs : Nat) (jobs : List α) :
    (batcher bs jobs).flatten = jobs := by
  have := batchAux_flatten bs jobs ([] : List α)
  simpa [batcher] using this

theorem doubleUntil_ge (n : Nat) :
    ∀ b : Nat, 10 - b ≤ n → 1 ≤ b → 10 ≤ doubleUntil b := by
  induction n with
  | zero =>
    intro b h h1
    have hb : 10 ≤ b := by omega
    rw [doubleUntil]
    simp [Nat.not_lt.mpr hb]
    omega
  | succ n ih =>
    intro b h h1
    by_cases hb : b < 10
    · rw [doubleUntil]
      have hb0 : ¬ b = 0 := by omega
      simp [hb, hb0]
      exact ih (2 * b) (by omega) (by omega)
    · rw [doubleUntil]
      simp [hb]
      omega

theorem doubleUntil_ge_self (b : Nat) : b ≤ doubleUntil b ∨ b = 0 := by
  by_cases h : b = 0
  · right; exact h
  · left
    have : ∀ n b : Nat, 10 - b ≤ n → 1 ≤ b → b ≤ doubleUntil b := by
      intro n
      induction n with
      | zero =>
        intro b hn h1
        rw [doubleUntil]
        have : ¬ b < 10 := by omega
        simp [this]
      | succ n ih =>
        intro b hn h1
        by_cases hb : b < 10
        · rw [doubleUntil]
          have hb0 : ¬ b = 0 := by omega
          simp [hb, hb0]
          have := ih (2 * b) (by omega) (by omega)
          omega
        · rw [doubleUntil]
          simp [hb]
    exact this (10 - b) b (Nat.le_refl _) (by omega)

theorem batchSize_ge_ten (n : Nat) (h : 1 ≤ n) : 10 ≤ batchSize n :=
  doubleUntil_ge (10 - 4 * n) (4 * n) (Nat.le_refl _) (by omega)

/-! Lemmas about the primitive operations. -/

theorem countSubmits_append (l1 l2 : List Event) :
    countSubmits (l1 ++ l2) = countSubmits l1 + countSubmits l2 := by
  simp [countSubmits, List.filter_append]

theorem countResolves_append (l1 l2 : List Event) :
    countResolves (l1 ++ l2) = countResolves l1 + countResolves l2 := by
  simp [countResolves, List.filter_append]

theorem popResolve_sum (st : DrainState) :
    (popResolve st).complete + (popResolve st).results.sum
      = st.complete + st.results.sum := by
  rcases st with ⟨rs, comp, ts, ev⟩
  cases rs <;> simp [popResolve] <;> omega

theorem popResolve_timestamp (st : DrainState) :
    (popResolve st).timestamp = st.timestamp := by
  rcases st with ⟨rs, comp, ts, ev⟩
  cases rs <;> simp [popResolve]

theorem popResolve_inv (st : DrainState) (h : Inv st) : Inv (popResolve st) := by
  rcases st with ⟨rs, comp, ts, ev⟩
  cases rs with
  | nil => exact h
  | cons c rest =>
    simp only [Inv, popResolve, countSubmits_append, countResolves_append] at h ⊢
    simp [countSubmits, countResolves, isSubmit, isResolve] at h ⊢
    omega

theorem popResolve_events (st : DrainState) :
    ∀ e ∈ (popResolve st).events, e ∈ st.events ∨ SchedEv e := by
  rcases st with ⟨rs, comp, ts, ev⟩
  cases rs with
  | nil => intro e he; exact Or.inl he
  | cons c rest =>
    intro e he
    simp only [popResolve, List.mem_append, List.mem_singleton] at he
    rcases he with he | he
    · exact Or.inl he
    · exact Or.inr (Or.inr (by simp [he, isResolve]))

theorem popResolveN_sum (n : Nat) :
    ∀ st : DrainState, (popResolveN n st).complete + (popResolveN n st).results.sum
      = st.complete + st.results.sum := by
  induction n with
  | zero => intro st; rfl
  | succ n ih =>
    intro st
    simp only [popResolveN]
    rw [ih (popResolve st), popResolve_sum]

theorem popResolveN_timestamp (n : Nat) :
    ∀ st : DrainState, (popResolveN n st).timestamp = st.timestamp := by
  induction n with
  | zero => intro st; rfl
  | succ n ih =>
    intro st
    simp only [popResolveN]
    rw [ih (popResolve st), popResolve_timestamp]

theorem popResolveN_inv (n : Nat) :
    ∀ st : DrainState, Inv st → Inv (popResolveN n st) := by
  induction n with
  | zero => intro st h; exact h
  | succ n ih =>
    intro st h
    exact ih (popResolve st) (popResolve_inv st h)

theorem popResolveN_events (n : Nat) :
    ∀ st : DrainState, ∀ e ∈ (popResolveN n st).events, e ∈ st.events ∨ SchedEv e := by
  induction n with
  | zero => intro st e he; exact Or.inl he
  | succ n ih =>
    intro st e he
    rcases ih (popResolve st) e he with h | h
    · exact popResolve_events st e h
    · exact Or.inr h

theorem popResolveN_spec (n : Nat) :
    ∀ st : DrainState, n ≤ st.results.length →
      (popResolveN n st).results = st.results.drop n
        ∧ (popResolveN n st).complete = st.complete + (st.results.take n).sum := by
  induction n with
  | zero => intro st _; simp [popResolveN]
  | succ n ih =>
    intro st h
    rcases st with ⟨rs, comp, ts, ev⟩
    cases rs with
    | nil => simp at h
    | cons c rest =>
      simp only [popResolveN, popResolve]
      have := ih ⟨rest, comp + c, ts, ev ++ [Event.resolve c]⟩ (by simp at h ⊢; omega)
      simp only [List.drop_succ_cons, List.take_succ_cons, List.sum_cons] at *
      constructor
      · exact this.1
      · rw [this.2]; omega

theorem popResolve_length_lt (st : DrainState) (h : st.results ≠ []) :
    (popResolve st).results.length < st.results.length := by
  rcases st with ⟨rs, comp, ts, ev⟩
  cases rs with
  | nil => simp at h
  | cons c rest => simp [popResolve]

theorem popResolve_length_pred (st : DrainState) (h : st.results ≠ []) :
    (popResolve st).results.length + 1 = st.results.length := by
  rcases st with ⟨rs, comp, ts, ev⟩
  cases rs with
  | nil => simp at h
  | cons c rest => simp [popResolve]

theorem drainTo_props (n : Nat) :
    ∀ (t : Nat) (st : DrainState), st.results.length ≤ n →
      (drainTo t st).results.length ≤ t
      ∧ (drainTo t st).complete + (drainTo t st).results.sum
          = st.complete + st.results.sum
      ∧ (drainTo t st).timestamp = st.timestamp
      ∧ (Inv st → Inv (drainTo t st))
      ∧ (∀ e ∈ (drainTo t st).events, e ∈ st.events ∨ SchedEv e)
      ∧ (t ≤ st.results.length → (drainTo t st).results.length = t) := by
  induction n with
  | zero =>
    intro t st h
    have hlen : st.results.length = 0 := by omega
    rw [drainTo]
    have hc : ¬ t < st.results.length := by omega
    rw [dif_neg hc]
    refine ⟨by omega, rfl, rfl, fun hi => hi, fun e he => Or.inl he, by omega⟩
  | succ n ih =>
    intro t st h
    by_cases hlt : t < st.results.length
    · have hne : st.results ≠ [] := by
        intro hcon; rw [hcon] at hlt; simp at hlt
      have hdec := popResolve_length_pred st hne
      have hrec := ih t (popResolve st) (by omega)
      rw [drainTo]
      rw [dif_pos hlt]
      refine ⟨hrec.1, ?_, ?_, ?_, ?_, fun _ => ?_⟩
      · rw [hrec.2.1, popResolve_sum]
      · rw [hrec.2.2.1, popResolve_timestamp]
      · intro hi
        exact hrec.2.2.2.1 (popResolve_inv st hi)
      · intro e he
        rcases hrec.2.2.2.2.1 e he with h1 | h1
        · exact popResolve_events st e h1
        · exact Or.inr h1
      · exact hrec.2.2.2.2.2 (by omega)
    · rw [drainTo]
      rw [dif_neg hlt]
      refine ⟨by omega, rfl, rfl, fun hi => hi, fun e he => Or.inl he, fun h2 => by omega⟩

theorem drainTo_length_le (t : Nat) (st : DrainState) :
    (drainTo t st).results.length ≤ t :=
  (drainTo_props st.results.length t st (Nat.le_refl _)).1

theorem drainTo_length_eq (t : Nat) (st : DrainState) (h : t ≤ st.results.length) :
    (drainTo t st).results.length = t :=
  (drainTo_props st.results.length t st (Nat.le_refl _)).2.2.2.2.2 h

theorem drainTo_sum (t : Nat) (st : DrainState) :
    (drainTo t st).complete + (drainTo t st).results.sum
      = st.complete + st.results.sum :=
  (drainTo_props st.results.length t st (Nat.le_refl _)).2.1

theorem drainTo_timestamp (t : Nat) (st : DrainState) :
    (drainTo t st).timestamp = st.timestamp :=
  (drainTo_props st.results.length t st (Nat.le_refl _)).2.2.1

theorem drainTo_inv (t : Nat) (st : DrainState) (h : Inv st) : Inv (drainTo t st) :=
  (drainTo_props st.results.length t st (Nat.le_refl _)).2.2.2.1 h

theorem drainTo_events (t : Nat) (st : DrainState) :
    ∀ e ∈ (drainTo t st).events, e ∈ st.events ∨ SchedEv e :=
  (drainTo_props st.results.length t st (Nat.le_refl _)).2.2.2.2.1

theorem drainTo_zero_results (st : DrainState) : (drainTo 0 st).results = [] :=
  List.length_eq_zero.mp (Nat.le_zero.mp (drainTo_length_le 0 st))

theorem popResolveN_length (n : Nat) (st : DrainState) (h : n ≤ st.results.length) :
    (popResolveN n st).results.length = st.results.length - n := by
  rw [(popResolveN_spec n st h).1]
  simp

theorem timedDrain_length_le (bs : Nat) (st : DrainState) (t2 : Nat) :
    (timedDrain bs st t2).results.length ≤ st.results.length := by
  unfold timedDrain
  by_cases h1 : st.timestamp + 1 ≤ t2
  · simp only [h1, if_true]
    by_cases h2 : floordiv 1000 bs < st.results.length
    · simp only [h2, if_true]
      rw [popResolveN_length _ _ (by simp; omega)]
      simp
    · simp [h2]
  · simp [h1]

theorem timedDrain_sum (bs : Nat) (st : DrainState) (t2 : Nat) :
    (timedDrain bs st t2).complete + (timedDrain bs st t2).results.sum
      = st.complete + st.results.sum := by
  unfold timedDrain
  by_cases h1 : st.timestamp + 1 ≤ t2
  · simp only [h1, if_true]
    by_cases h2 : floordiv 1000 bs < st.results.length
    · simp only [h2, if_true]
      rw [popResolveN_sum]
    · simp [h2]
  · simp [h1]

theorem timedDrain_inv (bs : Nat) (st : DrainState) (t2 : Nat) (h : Inv st) :
    Inv (timedDrain bs st t2) := by
  unfold timedDrain
  by_cases h1 : st.timestamp + 1 ≤ t2
  · simp only [h1, if_true]
    by_cases h2 : floordiv 1000 bs < st.results.length
    · simp only [h2, if_true]
      exact popResolveN_inv _ _ h
    · simpa [h2] using h
  · simpa [h1] using h

theorem timedDrain_events (bs : Nat) (st : DrainState) (t2 : Nat) :
    ∀ e ∈ (timedDrain bs st t2).events, e ∈ st.events ∨ SchedEv e := by
  unfold timedDrain
  by_cases h1 : st.timestamp + 1 ≤ t2
  · simp only [h1, if_true]
    by_cases h2 : floordiv 1000 bs < st.results.length
    · simp only [h2, if_true]
      exact popResolveN_events _ _
    · simp only [h2, if_false]
      intro e he; exact Or.inl he
  · simp only [h1, if_false]
    intro e he; exact Or.inl he

theorem sizeDrain_length_le (trigger target : Nat) (st : DrainState)
    (h : target ≤ trigger) :
    (sizeDrain trigger target st).results.length ≤ trigger := by
  unfold sizeDrain
  by_cases h1 : trigger < st.results.length
  · simp only [h1, if_true]
    exact Nat.le_trans (drainTo_length_le _ _) h
  · simp only [h1, if_false]
    omega

theorem sizeDrain_of_le (trigger target : Nat) (st : DrainState)
    (h : st.results.length ≤ trigger) :
    sizeDrain trigger target st = st := by
  unfold sizeDrain
  have : ¬ trigger < st.results.length := by omega
  simp [this]

theorem sizeDrain_length_eq (trigger target : Nat) (st : DrainState)
    (h1 : trigger < st.results.length) (h2 : target ≤ trigger) :
    (sizeDrain trigger target st).results.length = target := by
  unfold sizeDrain
  simp only [h1, if_true]
  exact drainTo_length_eq _ _ (by omega)

theorem sizeDrain_sum (trigger target : Nat) (st : DrainState) :
    (sizeDrain trigger target st).complete + (sizeDrain trigger target st).results.sum
      = st.complete + st.results.sum := by
  unfold sizeDrain
  by_cases h1 : trigger < st.results.length
  · simp only [h1, if_true]; exact drainTo_sum _ _
  · simp [h1]

theorem sizeDrain_inv (trigger target : Nat) (st : DrainState) (h : Inv st) :
    Inv (sizeDrain trigger target st) := by
  unfold sizeDrain
  by_cases h1 : trigger < st.results.length
  · simp only [h1, if_true]; exact drainTo_inv _ _ h
  · simpa [h1] using h

theorem sizeDrain_events (trigger target : Nat) (st : DrainState) :
    ∀ e ∈ (sizeDrain trigger target st).events, e ∈ st.events ∨ SchedEv e := by
  unfold sizeDrain
  by_cases h1 : trigger < st.results.length
  · simp only [h1, if_true]; exact drainTo_events _ _
  · simp only [h1, if_false]
    intro e he; exact Or.inl he

theorem pushHandle_sum (runB : List Job → Nat) (b : List Job) (st : DrainState) :
    (pushHandle runB b st).complete + (pushHandle runB b st).results.sum
      = st.complete + st.results.sum + runB b := by
  simp [pushHandle]
  omega

theorem pushHandle_inv (runB : List Job → Nat) (b : List Job) (st : DrainState)
    (h : Inv st) : Inv (pushHandle runB b st) := by
  simp only [Inv, pushHandle, countSubmits_append, countResolves_append] at h ⊢
  simp [countSubmits, countResolves, isSubmit, isResolve] at h ⊢
  omega

theorem pushHandle_events (runB : List Job → Nat) (b : List Job) (st : DrainState) :
    ∀ e ∈ (pushHandle runB b st).events, e ∈ st.events ∨ SchedEv e := by
  intro e he
  simp only [pushHandle, List.mem_append, List.mem_singleton] at he
  rcases he with he | he
  · exact Or.inl he
  · exact Or.inr (Or.inl (by simp [he, isSubmit]))

theorem levelIter_length (bs trigger target : Nat) (runB : List Job → Nat)
    (b : List Job) (st : DrainState) (t2 : Nat) (h : target ≤ trigger) :
    (levelIter bs trigger target runB b st t2).results.length ≤ trigger :=
  sizeDrain_length_le _ _ _ h

theorem levelIter_sum (bs trigger target : Nat) (runB : List Job → Nat)
    (b : List Job) (st : DrainState) (t2 : Nat) :
    (levelIter bs trigger target runB b st t2).complete
        + (levelIter bs trigger target runB b st t2).results.sum
      = st.complete + st.results.sum + runB b := by
  unfold levelIter
  rw [sizeDrain_sum, timedDrain_sum, pushHandle_sum]

theorem levelIter_inv (bs trigger target : Nat) (runB : List Job → Nat)
    (b : List Job) (st : DrainState) (t2 : Nat) (h : Inv st) :
    Inv (levelIter bs trigger target runB b st t2) :=
  sizeDrain_inv _ _ _ (timedDrain_inv _ _ _ (pushHandle_inv _ _ _ h))

theorem levelIter_events (bs trigger target : Nat) (runB : List Job → Nat)
    (b : List Job) (st : DrainState) (t2 : Nat) :
    ∀ e ∈ (levelIter bs trigger target runB b st t2).events,
      e ∈ st.events ∨ SchedEv e := by
  intro e he
  rcases sizeDrain_events _ _ _ e he with h1 | h1
  · rcases timedDrain_events _ _ _ e h1 with h2 | h2
    · exact pushHandle_events _ _ _ e h2
    · exact Or.inr h2
  · exact Or.inr h1

theorem runLevelLoop_length (bs trigger target : Nat) (runB : List Job → Nat)
    (batches : List (List Job)) :
    ∀ (st : DrainState) (ck : Clock), target ≤ trigger →
      st.results.length ≤ trigger →
      (runLevelLoop bs trigger target runB batches st ck).1.results.length ≤ trigger := by
  induction batches with
  | nil => intro st ck _ h2; exact h2
  | cons b bs2 ih =>
    intro st ck h1 h2
    simp only [runLevelLoop]
    exact ih _ _ h1 (levelIter_length _ _ _ _ _ _ _ h1)

theorem runLevelLoop_sum (bs trigger target : Nat) (runB : List Job → Nat)
    (batches : List (List Job)) :
    ∀ (st : DrainState) (ck : Clock),
      (runLevelLoop bs trigger target runB batches st ck).1.complete
          + (runLevelLoop bs trigger target runB batches st ck).1.results.sum
        = st.complete + st.results.sum + (batches.map runB).sum := by
  induction batches with
  | nil => intro st ck; simp [runLevelLoop]
  | cons b bs2 ih =>
    intro st ck
    simp only [runLevelLoop, List.map_cons, List.sum_cons]
    rw [ih]
    rw [levelIter_sum]
    omega

theorem runLevelLoop_inv (bs trigger target : Nat) (runB : List Job → Nat)
    (batches : List (List Job)) :
    ∀ (st : DrainState) (ck : Clock), Inv st →
      Inv (runLevelLoop bs trigger target runB batches st ck).1 := by
  induction batches with
  | nil => intro st ck h; exact h
  | cons b bs2 ih =>
    intro st ck h
    simp only [runLevelLoop]
    exact ih _ _ (levelIter_inv _ _ _ _ _ _ _ h)

theorem runLevelLoop_events (bs trigger target : Nat) (runB : List Job → Nat)
    (batches : List (List Job)) :
    ∀ (st : DrainState) (ck : Clock),
      ∀ e ∈ (runLevelLoop bs trigger target runB batches st ck).1.events,
        e ∈ st.events ∨ SchedEv e := by
  induction batches with
  | nil => intro st ck e he; exact Or.inl he
  | cons b bs2 ih =>
    intro st ck e he
    rcases ih _ _ e he with h1 | h1
    · exact levelIter_events _ _ _ _ _ _ _ e h1
    · exact Or.inr h1

/-! Totals: the batch runners return batch lengths, and a level's handle
counts sum to the number of jobs generated for that level. -/

theorem count_foldl (l : List α) :
    ∀ n : Nat, l.foldl (fun c _ => c + 1) n = n + l.length := by
  induction l with
  | nil => intro n; simp
  | cons x xs ih =>
    intro n
    simp only [List.foldl_cons, List.length_cons]
    rw [ih]
    omega

theorem render_worldtile_batch_length (b : List Job) :
    render_worldtile_batch b = b.length := by
  unfold render_worldtile_batch
  rw [count_foldl]
  omega

theorem render_innertile_batch_length (b : List Job) :
    render_innertile_batch b = b.length := by
  unfold render_innertile_batch
  rw [count_foldl]
  omega

theorem batcher_sum_lengths (bs : Nat) (jobs : List α) :
    ((batcher bs jobs).map List.length).sum = jobs.length := by
  rw [← List.length_flatten, batcher_flatten]

theorem applyRenderWorldtiles_sum (bs : Nat) (qts : List Quadtree) :
    ((applyRenderWorldtiles bs qts).map render_worldtile_batch).sum
      = (qts.map fun q => q.worldtiles.length).sum := by
  unfold applyRenderWorldtiles
  rw [show render_worldtile_batch = List.length from funext render_worldtile_batch_length]
  rw [batcher_sum_lengths]
  rw [List.length_map, roundrobin_length, List.map_map]
  rfl

theorem applyRenderInnertiles_sum (bs zoom : Nat) (qts : List Quadtree) :
    ((applyRenderInnertiles bs zoom qts).map render_innertile_batch).sum
      = ((qts.filter fun q => zoom ≤ q.p).map fun q => (q.innertiles zoom).length).sum := by
  unfold applyRenderInnertiles
  rw [show render_innertile_batch = List.length from funext render_innertile_batch_length]
  rw [batcher_sum_lengths]
  rw [List.length_map, roundrobin_length, List.map_map]
  rfl

/-! Level-pass lemmas. -/

theorem goWorldLevel_results (bs : Nat) (qts : List Quadtree) (st : DrainState)
    (ck : Clock) : (goWorldLevel bs qts st ck).1.results = [] := by
  simp only [goWorldLevel]
  exact drainTo_zero_results _

theorem goWorldLevel_complete (bs : Nat) (qts : List Quadtree) (st : DrainState)
    (ck : Clock) (h0 : st.results = []) :
    (goWorldLevel bs qts st ck).1.complete
      = st.complete + (qts.map fun q => q.worldtiles.length).sum := by
  simp only [goWorldLevel]
  have hdrain := drainTo_sum 0
    (runLevelLoop bs (baseDrainTrigger bs) (baseDrainTarget bs)
      render_worldtile_batch (applyRenderWorldtiles bs qts)
      { st with timestamp := (Clock.read ck).1 } (Clock.read ck).2).1
  have hzero : (drainTo 0
      (runLevelLoop bs (baseDrainTrigger bs) (baseDrainTarget bs)
        render_worldtile_batch (applyRenderWorldtiles bs qts)
        { st with timestamp := (Clock.read ck).1 } (Clock.read ck).2).1).results = [] :=
    drainTo_zero_results _
  have hloop := runLevelLoop_sum bs (baseDrainTrigger bs) (baseDrainTarget bs)
    render_worldtile_batch (applyRenderWorldtiles bs qts)
    { st with timestamp := (Clock.read ck).1 } (Clock.read ck).2
  rw [hzero] at hdrain
  simp only [List.sum_nil, Nat.add_zero] at hdrain
  rw [hdrain, hloop]
  simp only [h0]
  rw [applyRenderWorldtiles_sum]
  simp

theorem goWorldLevel_inv (bs : Nat) (qts : List Quadtree) (st : DrainState)
    (ck : Clock) (h : Inv st) : Inv (goWorldLevel bs qts st ck).1 := by
  simp only [goWorldLevel]
  apply drainTo_inv
  apply runLevelLoop_inv
  simpa [Inv] using h

theorem goWorldLevel_events (bs : Nat) (qts : List Quadtree) (st : DrainState)
    (ck : Clock) :
    ∀ e ∈ (goWorldLevel bs qts st ck).1.events, e ∈ st.events ∨ SchedEv e := by
  simp only [goWorldLevel]
  intro e he
  rcases drainTo_events _ _ e he with h1 | h1
  · rcases runLevelLoop_events _ _ _ _ _ _ _ e h1 with h2 | h2
    · exact Or.inl h2
    · exact Or.inr h2
  · exact Or.inr h1

theorem goInnerLevel_results (bs zoom : Nat) (qts : List Quadtree) (st : DrainState)
    (ck : Clock) : (goInnerLevel bs zoom qts st ck).1.results = [] := by
  simp only [goInnerLevel]
  exact drainTo_zero_results _

theorem goInnerLevel_complete (bs zoom : Nat) (qts : List Quadtree) (st : DrainState)
    (ck : Clock) (h0 : st.results = []) :
    (goInnerLevel bs zoom qts st ck).1.complete
      = ((qts.filter fun q => zoom ≤ q.p).map fun q => (q.innertiles zoom).length).sum := by
  simp only [goInnerLevel]
  have hdrain := drainTo_sum 0
    (runLevelLoop bs (innerDrainTrigger bs) (innerDrainTarget bs)
      render_innertile_batch (applyRenderInnertiles bs zoom qts)
      { st with complete := 0, timestamp := (Clock.read ck).1 } (Clock.read ck).2).1
  have hzero : (drainTo 0
      (runLevelLoop bs (innerDrainTrigger bs) (innerDrainTarget bs)
        render_innertile_batch (applyRenderInnertiles bs zoom qts)
        { st with complete := 0, timestamp := (Clock.read ck).1 } (Clock.read ck).2).1).results = [] :=
    drainTo_zero_results _
  have hloop := runLevelLoop_sum bs (innerDrainTrigger bs) (innerDrainTarget bs)
    render_innertile_batch (applyRenderInnertiles bs zoom qts)
    { st with complete := 0, timestamp := (Clock.read ck).1 } (Clock.read ck).2
  rw [hzero] at hdrain
  simp only [List.sum_nil, Nat.add_zero] at hdrain
  rw [hdrain, hloop]
  simp only [h0]
  rw [applyRenderInnertiles_sum]
  simp

theorem goInnerLevel_inv (bs zoom : Nat) (qts : List Quadtree) (st : DrainState)
    (ck : Clock) (h : Inv st) : Inv (goInnerLevel bs zoom qts st ck).1 := by
  simp only [goInnerLevel]
  apply drainTo_inv
  apply runLevelLoop_inv
  simpa [Inv] using h

theorem goInnerLevel_events (bs zoom : Nat) (qts : List Quadtree) (st : DrainState)
    (ck : Clock) :
    ∀ e ∈ (goInnerLevel bs zoom qts st ck).1.events, e ∈ st.events ∨ SchedEv e := by
  simp only [goInnerLevel]
  intro e he
  rcases drainTo_events _ _ e he with h1 | h1
  · rcases runLevelLoop_events _ _ _ _ _ _ _ e h1 with h2 | h2
    · exact Or.inl h2
    · exact Or.inr h2
  · exact Or.inr h1

theorem goInnerLoop_props (bs : Nat) (qts : List Quadtree) (zs : List Nat) :
    ∀ (st : DrainState) (ck : Clock), st.results = [] → Inv st →
      (goInnerLoop bs qts zs st ck).1.results = []
      ∧ Inv (goInnerLoop bs qts zs st ck).1
      ∧ (∀ e ∈ (goInnerLoop bs qts zs st ck).1.events, e ∈ st.events ∨ SchedEv e) := by
  induction zs with
  | nil =>
    intro st ck h0 h1
    exact ⟨h0, h1, fun e he => Or.inl he⟩
  | cons z zs ih =>
    intro st ck h0 h1
    simp only [goInnerLoop]
    have hres := goInnerLevel_results bs z qts st ck
    have hinv := goInnerLevel_inv bs z qts st ck h1
    have hev := goInnerLevel_events bs z qts st ck
    have hrec := ih (goInnerLevel bs z qts st ck).1 (goInnerLevel bs z qts st ck).2
      hres hinv
    refine ⟨hrec.1, hrec.2.1, ?_⟩
    intro e he
    rcases hrec.2.2 e he with h2 | h2
    · exact hev e h2
    · exact Or.inr h2

theorem assignIndicesFrom_length (i : Nat) (qts : List Quadtree) :
    (assignIndicesFrom i qts).length = qts.length := by
  induction qts generalizing i with
  | nil => rfl
  | cons q qs ih => simp [assignIndicesFrom, ih]

theorem assignIndicesFrom_roots (qts : List Quadtree) :
    ∀ i : Nat, (assignIndicesFrom i qts).map (fun q => Event.renderRoot q.renderIndex)
      = (List.range' i qts.length).map Event.renderRoot := by
  induction qts with
  | nil => intro i; rfl
  | cons q qs ih =>
    intro i
    simp only [assignIndicesFrom, List.map_cons, List.length_cons, List.range'_succ]
    rw [ih (i + 1)]

theorem initState_inv : Inv initState := by
  simp [Inv, initState, countSubmits, countResolves]

theorem SchedEv_not_root (e : Event) (h : SchedEv e) (i : Nat) :
    ¬ e = Event.renderRoot i := by
  cases e <;> simp_all [SchedEv, isSubmit, isResolve]

theorem renderRoot_filter_one (n i : Nat) (h : i < n) :
    (((List.range n).map Event.renderRoot).filter
      (fun e => e = Event.renderRoot i)).length = 1 := by
  rw [List.filter_map, List.length_map]
  have h1 : List.filter (fun j => decide (j = i)) (List.range n)
      = List.filter ((fun e => decide (e = Event.renderRoot i)) ∘ Event.renderRoot)
          (List.range n) := by
    apply List.filter_congr
    intro x _
    simp
  rw [← h1]
  have h2 : (List.filter (fun j => decide (j = i)) (List.range n)).length
      = (List.range n).count i := by
    rw [List.count, List.countP_eq_length_filter]
    congr 1
  rw [h2]
  exact List.count_eq_one_of_mem (List.nodup_range n) (List.mem_range.mpr h)

theorem go_eq (qts : List Quadtree) (ck : Clock) :
    go qts ck =
      (goInnerLoop (batchSize (assignRenderIndices qts).length)
        (assignRenderIndices qts) (zoomList (maxP (assignRenderIndices qts)))
        (goWorldLevel (batchSize (assignRenderIndices qts).length)
          (assignRenderIndices qts) initState ck).1
        (goWorldLevel (batchSize (assignRenderIndices qts).length)
          (assignRenderIndices qts) initState ck).2).1.events
      ++ [Event.poolClose, Event.poolJoin]
      ++ (assignRenderIndices qts).map (fun q => Event.renderRoot q.renderIndex) := rfl

theorem assignRenderIndices_roots (qts : List Quadtree) :
    (assignRenderIndices qts).map (fun q => Event.renderRoot q.renderIndex)
      = (List.range qts.length).map Event.renderRoot := by
  unfold assignRenderIndices
  rw [assignIndicesFrom_roots qts 0, ← List.range_eq_range']

/-- C5: in every run on a non-empty list of pyramids, the trace decomposes as
scheduler events (submissions and resolutions only), then pool shutdown
(`close`, `join`), then exactly the root-tile renders, one per pyramid; every
submitted handle has been resolved before shutdown (all queues drained to
size 0), and each pyramid's root tile is rendered exactly once, directly by
the scheduler (a `renderRoot` event, never a pool submission). -/
theorem go_root_phase (qts : List Quadtree) (ck : Clock) (hne : qts ≠ []) :
    ∃ pre : List Event,
      go qts ck = pre ++ [Event.poolClose, Event.poolJoin]
          ++ (List.range qts.length).map Event.renderRoot
      ∧ (∀ e ∈ pre, SchedEv e)
      ∧ countSubmits pre = countResolves pre
      ∧ (∀ i, i < qts.length →
          ((go qts ck).filter (fun e => e = Event.renderRoot i)).length = 1) := by
  obtain ⟨hres, hinv, hev⟩ := goInnerLoop_props
    (batchSize (assignRenderIndices qts).length) (assignRenderIndices qts)
    (zoomList (maxP (assignRenderIndices qts)))
    (goWorldLevel (batchSize (assignRenderIndices qts).length)
      (assignRenderIndices qts) initState ck).1
    (goWorldLevel (batchSize (assignRenderIndices qts).length)
      (assignRenderIndices qts) initState ck).2
    (goWorldLevel_results _ _ _ _)
    (goWorldLevel_inv _ _ _ _ initState_inv)
  refine ⟨(goInnerLoop (batchSize (assignRenderIndices qts).length)
    (assignRenderIndices qts) (zoomList (maxP (assignRenderIndices qts)))
    (goWorldLevel (batchSize (assignRenderIndices qts).length)
      (assignRenderIndices qts) initState ck).1
    (goWorldLevel (batchSize (assignRenderIndices qts).length)
      (assignRenderIndices qts) initState ck).2).1.events, ?_, ?_, ?_, ?_⟩
  · rw [go_eq, assignRenderIndices_roots]
  · intro e he
    rcases hev e he with h1 | h1
    · rcases goWorldLevel_events _ _ _ _ e h1 with h2 | h2
      · simp [initState] at h2
      · exact h2
    · exact h1
  · have hb := hinv
    simp only [Inv, hres, List.length_nil, Nat.add_zero] at hb
    exact hb
  · intro i hi
    rw [go_eq, assignRenderIndices_roots]
    rw [List.filter_append, List.filter_append]
    have h0 : ((goInnerLoop (batchSize (assignRenderIndices qts).length)
        (assignRenderIndices qts) (zoomList (maxP (assignRenderIndices qts)))
        (goWorldLevel (batchSize (assignRenderIndices qts).length)
          (assignRenderIndices qts) initState ck).1
        (goWorldLevel (batchSize (assignRenderIndices qts).length)
          (assignRenderIndices qts) initState ck).2).1.events.filter
          (fun e => e = Event.renderRoot i)) = [] := by
      rw [List.filter_eq_nil_iff]
      intro e he
      have hse : SchedEv e := by
        rcases hev e he with h1 | h1
        · rcases goWorldLevel_events _ _ _ _ e h1 with h2 | h2
          · simp [initState] at h2
          · exact h2
        · exact h1
      simpa using SchedEv_not_root e hse i
    have h1 : ([Event.poolClose, Event.poolJoin].filter
        (fun e => e = Event.renderRoot i)) = [] := by
      simp [List.filter]
    rw [h0, h1]
    simp only [List.nil_append, List.append_nil]
    exact renderRoot_filter_one qts.length i hi

/-- C10: in a run where no handle resolution raises (the failure-free model
above), each batch-execution function returns exactly the length of its input
batch, every generated job lands in exactly one submitted batch, and at the
end of the base-level pass and of any inner-level pass the accumulated
`complete` counter equals the total number of jobs generated for that level;
moreover every submitted handle is resolved exactly once (submit and resolve
events balance once the level is drained). -/
theorem level_totals (bs : Nat) (qts : List Quadtree) (ck : Clock) (zoom : Nat)
    (st : DrainState) :
    (∀ b : List Job, render_worldtile_batch b = b.length
      ∧ render_innertile_batch b = b.length)
    ∧ (∀ (bs2 : Nat) (jobs : List Job), (batcher bs2 jobs).flatten = jobs)
    ∧ (goWorldLevel bs qts initState ck).1.complete
        = (qts.map fun q => q.worldtiles.length).sum
    ∧ (st.results = [] →
        (goInnerLevel bs zoom qts st ck).1.complete
          = ((qts.filter fun q => zoom ≤ q.p).map
              fun q => (q.innertiles zoom).length).sum)
    ∧ countSubmits (goWorldLevel bs qts initState ck).1.events
        = countResolves (goWorldLevel bs qts initState ck).1.events := by
  refine ⟨fun b => ⟨render_worldtile_batch_length b, render_innertile_batch_length b⟩,
    fun bs2 jobs => batcher_flatten bs2 jobs, ?_, ?_, ?_⟩
  · rw [goWorldLevel_complete bs qts initState ck rfl]
    simp [initState]
  · intro h0
    exact goInnerLevel_complete bs zoom qts st ck h0
  · have hinv := goWorldLevel_inv bs qts initState ck initState_inv
    have hres := goWorldLevel_results bs qts initState ck
    simp only [Inv, hres, List.length_nil, Nat.add_zero] at hinv
    exact hinv

/-- C1 (amended): whenever at least one wall-clock second has elapsed since
the previous timer reset, the timed drain resets the timestamp and, if
`1000//batchSize` is strictly less than the queue length, resolves exactly
the oldest `1000//batchSize` handles, accumulating their counts into the
running total; otherwise it resolves nothing. -/
theorem timedDrain_spec (bs : Nat) (st : DrainState) (t2 : Nat)
    (h : st.timestamp + 1 ≤ t2) :
    (floordiv 1000 bs < st.results.length →
      (timedDrain bs st t2).results = st.results.drop (floordiv 1000 bs)
      ∧ (timedDrain bs st t2).complete
          = st.complete + (st.results.take (floordiv 1000 bs)).sum)
    ∧ (¬ floordiv 1000 bs < st.results.length →
      (timedDrain bs st t2).results = st.results
      ∧ (timedDrain bs st t2).complete = st.complete)
    ∧ (timedDrain bs st t2).timestamp = t2 := by
  unfold timedDrain
  rw [if_pos h]
  by_cases h2 : floordiv 1000 bs < st.results.length
  · rw [if_pos h2]
    have hspec := popResolveN_spec (floordiv 1000 bs) { st with timestamp := t2 }
      (by simp; omega)
    refine ⟨fun _ => ⟨?_, ?_⟩, fun hc => absurd h2 hc, ?_⟩
    · exact hspec.1
    · exact hspec.2
    · rw [popResolveN_timestamp]
  · rw [if_neg h2]
    exact ⟨fun hc => absurd hc h2, fun _ => ⟨rfl, rfl⟩, rfl⟩

/-- C1 is false as stated: with batch size 16 (the batch size for one
pyramid) and a non-empty queue of 5 pending handles, a timed drain (one full
second elapsed) resolves zero handles — not `min(1000/batchSize, queueLength)
= 5` of them — because the source only drains when `1000//batch_size <
len(results)`. -/
theorem timedDrain_skips_small_queue :
    batchSize 1 = 16
    ∧ (0 : Nat) + 1 ≤ 1
    ∧ (timedDrain 16 ⟨[1, 1, 1, 1, 1], 0, 0, []⟩ 1).results.length = 5
    ∧ (timedDrain 16 ⟨[1, 1, 1, 1, 1], 0, 0, []⟩ 1).complete = 0
    ∧ min (floordiv 1000 16) 5 = 5
    ∧ (5 : Nat) ≠ 0 := by
  refine ⟨by simp [batchSize, doubleUntil], by decide, by decide, by decide,
    by decide, by decide⟩

/-- C4 is false in its second example: for 3 pyramids the starting value
`4 × 3 = 12` is already at least 10, so the doubling loop never runs and the
batch size is 12, not 24. -/
theorem batchSize_three_not_doubled : batchSize 3 = 12 ∧ (12 : Nat) ≠ 24 :=
  ⟨by simp [batchSize, doubleUntil], by decide⟩

/-- C4 (amended): the batch size is a function only of the pyramid count,
starting at `4 × pyramid_count` and doubling while below 10, hence always at
least 10 for at least one pyramid; 1 pyramid gives 16 (4 → 8 → 16) and 3
pyramids give 12 (no doubling, since 12 ≥ 10 already). -/
theorem batchSize_spec :
    (∀ n : Nat, 1 ≤ n → 10 ≤ batchSize n)
    ∧ batchSize 1 = 16
    ∧ batchSize 3 = 12
    ∧ (∀ n : Nat, batchSize n = doubleUntil (4 * n)) :=
  ⟨fun n h => batchSize_ge_ten n h,
   by simp [batchSize, doubleUntil],
   by simp [batchSize, doubleUntil],
   fun n => rfl⟩

/-- C9 is false: the trigger `10000//batch_size` (base-level loop) and
`10000/batch_size` (inner-level loop), and likewise the targets `500//...`
and `500/...`, are written with different division operators but have equal
values at every batch size, because in Python 2 `/` on two ints is floor
division exactly like `//`. -/
theorem drain_thresholds_agree :
    baseDrainTrigger = innerDrainTrigger ∧ baseDrainTarget = innerDrainTarget :=
  ⟨rfl, rfl⟩

/-- C9 (amended): the two level passes compute their size-based drain
thresholds with syntactically different operators (`//` vs Python 2 `/`),
but the values agree for every batch size and the two passes' size-based
drains are the same function. -/
theorem sizeDrain_passes_agree :
    (∀ bs : Nat, floordiv 10000 bs = py2div 10000 bs
      ∧ floordiv 500 bs = py2div 500 bs)
    ∧ (fun bs : Nat => sizeDrain (innerDrainTrigger bs) (innerDrainTarget bs))
        = (fun bs : Nat => sizeDrain (baseDrainTrigger bs) (baseDrainTarget bs)) :=
  ⟨fun bs => ⟨rfl, rfl⟩, rfl⟩

/-- C8 is false: the pyramid-index rewrite `job[0] = job[0]._render_index`
mutates the job object in place — after the batching loop body, the original
job (a list starting with a quadtree reference) holds the integer index
instead. -/
theorem dispatch_mutates_job :
    (dispatchJobStep [PyVal.qtreeRef 0]).1 ≠ [PyVal.qtreeRef 0]
    ∧ (dispatchJobStep [PyVal.qtreeRef 0]).1 = [PyVal.intVal 0] := by
  exact ⟨by decide, by decide⟩

/-- C8 (amended): the pyramid-index rewrite mutates the job in place: the
batch entry is the very same (now rewritten) object, only field 0 changes,
and no other mutation happens in the merge/batch/dispatch path — the batched
stream is exactly the generated jobs, each with field 0 rewritten once. -/
theorem dispatch_mutation_spec :
    (∀ job : Job, (dispatchJobStep job).2 = (dispatchJobStep job).1
      ∧ (dispatchJobStep job).1 = fixupJob job
      ∧ (fixupJob job).drop 1 = job.drop 1)
    ∧ (∀ (bs : Nat) (jobs : List Job),
        (batcher bs (jobs.map fixupJob)).flatten = jobs.map fixupJob) := by
  constructor
  · intro job
    refine ⟨rfl, rfl, ?_⟩
    match job with
    | [] => rfl
    | PyVal.qtreeRef i :: rest => simp [fixupJob]
    | PyVal.intVal n :: rest => simp [fixupJob]
    | PyVal.strVal s :: rest => simp [fixupJob]
  · intro bs jobs
    exact batcher_flatten bs (jobs.map fixupJob)

/-! Machinery for the queue-depth analysis (C2). -/

theorem baseDrainTarget_le (bs : Nat) : baseDrainTarget bs ≤ baseDrainTrigger bs :=
  Nat.div_le_div_right (by norm_num)

theorem batchAux_fill (bs : Nat) (a : α) (rest : List α) :
    ∀ (m : Nat) (batch : List α), 1 ≤ m → batch.length + m = bs →
      batchAux bs (List.replicate m a ++ rest) batch batch.length
        = (batch ++ List.replicate m a) :: batchAux bs rest [] 0 := by
  intro m
  induction m with
  | zero => intro batch h1 _; exact absurd h1 (by omega)
  | succ m ih =>
    intro batch h1 h2
    by_cases hm : m = 0
    · subst hm
      simp only [List.replicate_succ, List.replicate_zero, List.cons_append,
        List.nil_append, batchAux]
      have hge : batch.length + 1 ≥ bs := by omega
      rw [if_pos hge]
      simp
    · have h1m : 1 ≤ m := by omega
      simp only [List.replicate_succ, List.cons_append, batchAux]
      have hc : ¬ batch.length + 1 ≥ bs := by omega
      rw [if_neg hc]
      have hrec := ih (batch ++ [a]) h1m (by simp; omega)
      have hlen : (batch ++ [a]).length = batch.length + 1 := by simp
      rw [hlen] at hrec
      simp only [List.append_eq]
      rw [hrec]
      simp

theorem batcher_replicate (bs k : Nat) (a : α) (h : 1 ≤ bs) :
    batcher bs (List.replicate (bs * k) a)
      = List.replicate k (List.replicate bs a) := by
  induction k with
  | zero => simp [batcher, batchAux]
  | succ k ih =>
    have hsplit : bs * (k + 1) = bs + bs * k := by ring
    rw [hsplit, List.replicate_add]
    unfold batcher
    have hfill := batchAux_fill bs a (List.replicate (bs * k) a) bs ([] : List α)
      h (by simp)
    simp only [List.length_nil] at hfill
    rw [hfill]
    have : batchAux bs (List.replicate (bs * k) a) [] 0
        = batcher bs (List.replicate (bs * k) a) := rfl
    rw [this, ih]
    simp [List.replicate_succ]

/-- A run segment in which neither drain fires: constant clock 0 (so the
timed condition `timestamp2 >= timestamp + 1` is never true) and few enough
batches that the queue stays at or below the trigger.  Each iteration then
just appends its handle. -/
theorem runLevelLoop_quiet (bs trigger target : Nat) (runB : List Job → Nat)
    (batches : List (List Job)) :
    ∀ st : DrainState, st.timestamp = 0 →
      st.results.length + batches.length ≤ trigger →
      (runLevelLoop bs trigger target runB batches st ⟨[]⟩).1
        = { st with results := st.results ++ batches.map runB,
                    events := st.events
                      ++ batches.map (fun b => Event.submit b.length) } := by
  induction batches with
  | nil => intro st h1 h2; simp [runLevelLoop]
  | cons b bs2 ih =>
    intro st h1 h2
    simp only [runLevelLoop, Clock.read]
    have hpush : (pushHandle runB b st).results.length = st.results.length + 1 := by
      simp [pushHandle]
    have htd : timedDrain bs (pushHandle runB b st) 0 = pushHandle runB b st := by
      unfold timedDrain
      rw [if_neg]
      simp [pushHandle, h1]
    have hsd : sizeDrain trigger target (pushHandle runB b st)
        = pushHandle runB b st := by
      apply sizeDrain_of_le
      rw [hpush]
      simp at h2
      omega
    have hiter : levelIter bs trigger target runB b st 0 = pushHandle runB b st := by
      unfold levelIter
      rw [htd, hsd]
    rw [hiter]
    have hrec := ih (pushHandle runB b st) (by simp [pushHandle, h1])
      (by rw [hpush]; simp at h2 ⊢; omega)
    rw [hrec]
    simp [pushHandle]

/-- C2 (amended): at every loop-iteration boundary of a level pass the queue
depth is at most `10000//batchSize` (in particular at every point where a new
submission is accepted); accepting a submission raises it by exactly one, so
it never exceeds `10000//batchSize + 1` at any instruction, and as soon as it
exceeds the trigger the size-based drain synchronously resolves handles down
to exactly `500//batchSize` before the next submission. -/
theorem queue_depth_bound (bs : Nat) (batches : List (List Job))
    (runB : List Job → Nat) (st : DrainState) (ck : Clock)
    (h0 : st.results.length ≤ baseDrainTrigger bs) :
    (runLevelLoop bs (baseDrainTrigger bs) (baseDrainTarget bs) runB batches
        st ck).1.results.length ≤ baseDrainTrigger bs
    ∧ (∀ (b : List Job) (st2 : DrainState),
        (pushHandle runB b st2).results.length = st2.results.length + 1)
    ∧ (∀ st2 : DrainState, baseDrainTrigger bs < st2.results.length →
        (sizeDrain (baseDrainTrigger bs) (baseDrainTarget bs) st2).results.length
          = baseDrainTarget bs) := by
  refine ⟨?_, ?_, ?_⟩
  · exact runLevelLoop_length bs _ _ runB batches st ck (baseDrainTarget_le bs) h0
  · intro b st2; simp [pushHandle]
  · intro st2 h1
    exact sizeDrain_length_eq _ _ _ h1 (baseDrainTarget_le bs)

/-- C2 is false in its strict reading: in the base-level pass of a run with
one pyramid supplying 10016 leaf jobs (batch size 16, trigger
`10000//16 = 625`) and a clock that never advances, after 625 accepted
batches the queue holds 625 handles, and the moment the 626th submission is
accepted — `results.append(result)`, the first statement of the loop body,
before any drain runs — the depth is 626 > 625.  The size drain then brings
it down, so the bound is exceeded transiently by one. -/
theorem queue_depth_transient_overflow :
    batchSize 1 = 16
    ∧ baseDrainTrigger 16 = 625
    ∧ applyRenderWorldtiles 16
        [⟨1, 0, List.replicate 10016 [PyVal.qtreeRef 0], fun _ => []⟩]
        = List.replicate 626 (List.replicate 16 [PyVal.intVal 0])
    ∧ List.replicate 626 (List.replicate 16 [PyVal.intVal 0])
        = List.replicate 625 (List.replicate 16 [PyVal.intVal 0])
          ++ [List.replicate 16 [PyVal.intVal 0]]
    ∧ (runLevelLoop 16 (baseDrainTrigger 16) (baseDrainTarget 16)
        render_worldtile_batch
        (List.replicate 625 (List.replicate 16 [PyVal.intVal 0]))
        initState ⟨[]⟩).1.results.length = 625
    ∧ levelIter 16 (baseDrainTrigger 16) (baseDrainTarget 16)
        render_worldtile_batch (List.replicate 16 [PyVal.intVal 0])
        (runLevelLoop 16 (baseDrainTrigger 16) (baseDrainTarget 16)
          render_worldtile_batch
          (List.replicate 625 (List.replicate 16 [PyVal.intVal 0]))
          initState ⟨[]⟩).1 0
        = sizeDrain (baseDrainTrigger 16) (baseDrainTarget 16)
            (timedDrain 16
              (pushHandle render_worldtile_batch
                (List.replicate 16 [PyVal.intVal 0])
                (runLevelLoop 16 (baseDrainTrigger 16) (baseDrainTarget 16)
                  render_worldtile_batch
                  (List.replicate 625 (List.replicate 16 [PyVal.intVal 0]))
                  initState ⟨[]⟩).1) 0)
    ∧ (pushHandle render_worldtile_batch (List.replicate 16 [PyVal.intVal 0])
        (runLevelLoop 16 (baseDrainTrigger 16) (baseDrainTarget 16)
          render_worldtile_batch
          (List.replicate 625 (List.replicate 16 [PyVal.intVal 0]))
          initState ⟨[]⟩).1).results.length = 626
    ∧ ¬ (626 ≤ 625) := by
  have htrig : baseDrainTrigger 16 = 625 := by decide
  have happly : applyRenderWorldtiles 16
      [⟨1, 0, List.replicate 10016 [PyVal.qtreeRef 0], fun _ => []⟩]
      = List.replicate 626 (List.replicate 16 [PyVal.intVal 0]) := by
    unfold applyRenderWorldtiles
    have heff : effBatchSize 16
        ([⟨1, 0, List.replicate 10016 [PyVal.qtreeRef 0], fun _ => []⟩] :
          List Quadtree).length = 16 := by decide
    rw [heff]
    have hrr : roundrobin (([⟨1, 0, List.replicate 10016 [PyVal.qtreeRef 0],
        fun _ => []⟩] : List Quadtree).map Quadtree.worldtiles)
        = List.replicate 10016 [PyVal.qtreeRef 0] := by
      simp only [List.map_cons, List.map_nil]
      exact roundrobin_single _
    rw [hrr, List.map_replicate]
    have hfix : fixupJob [PyVal.qtreeRef 0] = [PyVal.intVal 0] := by decide
    rw [hfix]
    have h10016 : (10016 : Nat) = 16 * 626 := by norm_num
    rw [h10016]
    exact batcher_replicate 16 626 [PyVal.intVal 0] (by norm_num)
  have hquiet := runLevelLoop_quiet 16 (baseDrainTrigger 16) (baseDrainTarget 16)
    render_worldtile_batch
    (List.replicate 625 (List.replicate 16 [PyVal.intVal 0]))
    initState rfl
    (by rw [htrig]; simp only [initState, List.length_replicate, List.length_nil]; omega)
  have hlen : (runLevelLoop 16 (baseDrainTrigger 16) (baseDrainTarget 16)
      render_worldtile_batch
      (List.replicate 625 (List.replicate 16 [PyVal.intVal 0]))
      initState ⟨[]⟩).1.results.length = 625 := by
    rw [hquiet]
    simp only [initState, List.length_append, List.length_map, List.length_replicate,
      List.length_nil]
  have hpush : ∀ (b : List Job) (st2 : DrainState),
      (pushHandle render_worldtile_batch b st2).results.length
        = st2.results.length + 1 := by
    intro b st2; simp [pushHandle]
  refine ⟨by simp [batchSize, doubleUntil], htrig, happly, ?_, hlen, rfl, ?_, by decide⟩
  · rw [show (626 : Nat) = 625 + 1 from rfl, List.replicate_succ']
  · rw [hpush, hlen]

/-- C3: the round-robin merger on sequences of lengths 3, 1, 2 yields exactly
the 6 items in order A0,B0,C0,A1,C1,A2; in general it emits every item of
every source (output length = sum of the input lengths), skipping exhausted
sources without stalling the others, and terminates when all are exhausted. -/
theorem roundrobin_spec :
    (∀ (α : Type) (a0 a1 a2 b0 c0 c1 : α),
      roundrobin [[a0, a1, a2], [b0], [c0, c1]] = [a0, b0, c0, a1, c1, a2])
    ∧ (∀ (α : Type) (its : List (List α)),
        (roundrobin its).length = (its.map List.length).sum) := by
  constructor
  · intro α a0 a1 a2 b0 c0 c1
    simp [roundrobin, roundrobinAux]
  · intro α its
    exact roundrobin_length its

/-- C6 is false in its failure clause: for a batch function that raises, the
fallback pool's `apply_async` itself propagates the failure and returns no
handle, while the concurrent pool's submission succeeds and the failure
surfaces at `get()`.  The two pools are distinguishable by where the failure
appears. -/
theorem fakePool_fails_at_submit :
    fakePool_apply_async (fun _ : Unit => (Except.error "boom" : Except String Nat)) ()
        = Except.error "boom"
    ∧ poolApplyAsync (fun _ : Unit => (Except.error "boom" : Except String Nat)) ()
        = ⟨Except.error "boom"⟩
    ∧ (poolApplyAsync (fun _ : Unit => (Except.error "boom" : Except String Nat)) ()).get
        = Except.error "boom"
    ∧ FakeResult.get String (⟨0⟩ : FakeResult Nat) = Except.ok 0 :=
  ⟨rfl, rfl, rfl, rfl⟩

/-- C6 (amended): with concurrency 1 the fallback pool executes the batch
function synchronously inside `submit` and returns an already-resolved
handle; on success it is indistinguishable from the concurrent pool (same
value through `get()`).  On failure the pools differ: the fallback pool
raises inside `submit` itself (a `FakeResult.get` can never raise), whereas
the concurrent pool re-raises at `get()`. -/
theorem fakePool_success_equiv {ε α β : Type} (func : β → Except ε α) (args : β) :
    (∀ v : α, func args = Except.ok v →
      fakePool_apply_async func args = Except.ok ⟨v⟩
      ∧ (poolApplyAsync func args).get = Except.ok v
      ∧ FakeResult.get ε (⟨v⟩ : FakeResult α) = Except.ok v)
    ∧ (∀ e : ε, func args = Except.error e →
      fakePool_apply_async func args = Except.error e
      ∧ (poolApplyAsync func args).get = Except.error e)
    ∧ (∀ (r : FakeResult α) (e : ε), FakeResult.get ε r ≠ Except.error e) := by
  refine ⟨?_, ?_, ?_⟩
  · intro v hv
    refine ⟨?_, ?_, rfl⟩
    · simp [fakePool_apply_async, hv, Except.map]
    · simp [poolApplyAsync, AsyncResult.get, hv]
  · intro e he
    refine ⟨?_, ?_⟩
    · simp [fakePool_apply_async, he, Except.map]
    · simp [poolApplyAsync, AsyncResult.get, he]
  · intro r e
    simp [FakeResult.get]

theorem fakePool_success_equiv_witness :
    (fun _ : Unit => (Except.ok 7 : Except String Nat)) () = Except.ok 7
    ∧ fakePool_apply_async (fun _ : Unit => (Except.ok 7 : Except String Nat)) ()
        = Except.ok ⟨7⟩
    ∧ (poolApplyAsync (fun _ : Unit => (Except.ok 7 : Except String Nat)) ()).get
        = Except.ok 7 :=
  ⟨rfl,
   ((fakePool_success_equiv (fun _ : Unit => (Except.ok 7 : Except String Nat)) ()).1
     7 rfl).1,
   ((fakePool_success_equiv (fun _ : Unit => (Except.ok 7 : Except String Nat)) ()).1
     7 rfl).2.1⟩

theorem intRange_mem (a b x : Int) : x ∈ intRange a b ↔ a ≤ x ∧ x < b := by
  unfold intRange
  rw [List.mem_map]
  constructor
  · rintro ⟨i, hi, rfl⟩
    rw [List.mem_range] at hi
    show a ≤ a + (i : Int) ∧ a + (i : Int) < b
    omega
  · intro h
    refine ⟨(x - a).toNat, List.mem_range.mpr (by omega), ?_⟩
    show a + ((x - a).toNat : Int) = x
    omega

theorem intRange_nodup (a b : Int) : (intRange a b).Nodup := by
  have hinj : Function.Injective (fun i : Nat => a + (i : Int)) := by
    intro i j h
    have h2 : a + (i : Int) = a + (j : Int) := h
    omega
  exact (List.nodup_range _).map hinj

theorem chunkCell_some (w : World) (row col : Int)
    (t : Int × Int × Int × Int × String) (h : chunkCell w row col = some t) :
    t.1 = col ∧ t.2.1 = row ∧ row % 2 = col % 2
    ∧ w.unconvert_coords col row = (t.2.2.1, t.2.2.2.1)
    ∧ (w.regionfiles (Int.fdiv t.2.2.1 32, Int.fdiv t.2.2.2.1 32)).c
        = some t.2.2.2.2
    ∧ (w.regionfiles (Int.fdiv t.2.2.1 32, Int.fdiv t.2.2.2.1 32)).chunkExists
        t.2.2.1 t.2.2.2.1 = true := by
  simp only [chunkCell] at h
  by_cases hpar : row % 2 ≠ col % 2
  · rw [if_pos hpar] at h
    exact absurd h (by simp)
  · rw [if_neg hpar] at h
    split at h
    next cpath heq =>
      split at h
      next hex =>
        cases h
        exact ⟨rfl, rfl, not_ne_iff.mp hpar, rfl, heq, hex⟩
      next hex => exact absurd h (by simp)
    next heq => exact absurd h (by simp)

theorem chunkRow_mem (w : World) (colstart colend row : Int)
    (t : Int × Int × Int × Int × String) (h : t ∈ chunkRow w colstart colend row) :
    t.1 ∈ intRange colstart (colend + 1)
    ∧ t.2.1 = row ∧ row % 2 = t.1 % 2
    ∧ w.unconvert_coords t.1 row = (t.2.2.1, t.2.2.2.1)
    ∧ (w.regionfiles (Int.fdiv t.2.2.1 32, Int.fdiv t.2.2.2.1 32)).c
        = some t.2.2.2.2
    ∧ (w.regionfiles (Int.fdiv t.2.2.1 32, Int.fdiv t.2.2.2.1 32)).chunkExists
        t.2.2.1 t.2.2.2.1 = true := by
  simp only [chunkRow, List.mem_filterMap] at h
  obtain ⟨col, hcol, hf⟩ := h
  obtain ⟨h1, h2, h3, h4, h5, h6⟩ := chunkCell_some w row col t hf
  subst h1
  exact ⟨hcol, h2, h3, h4, h5, h6⟩

theorem pairwise_filterMap_trans {α β : Type} {S : α → α → Prop}
    {R : β → β → Prop} (f : α → Option β) :
    ∀ l : List α, l.Pairwise S →
      (∀ a b c d, S a b → f a = some c → f b = some d → R c d) →
      (l.filterMap f).Pairwise R := by
  intro l
  induction l with
  | nil => intro _ _; simp
  | cons x xs ih =>
    intro h himp
    rw [List.pairwise_cons] at h
    rw [List.filterMap_cons]
    rcases hfx : f x with _ | c
    · exact ih h.2 himp
    · rw [List.pairwise_cons]
      constructor
      · intro y hy
        obtain ⟨b, hb, hfb⟩ := List.mem_filterMap.mp hy
        exact himp x b c y (h.1 b hb) hfx hfb
      · exact ih h.2 himp

/-- C7: every tuple returned by `_get_chunks_in_range` has its tile row in
`[rowstart − 16, rowend]`, its tile column in `[colstart, colend]`, row and
column of equal parity, chunk coordinates equal to the unconversion of its
tile coordinates, and a region that is present and reports the chunk as
existing; and (when tile→chunk unconversion is injective) no two returned
tuples share the same (source-x, source-y) pair. -/
theorem get_chunks_in_range_spec (w : World) (colstart colend rowstart rowend : Int)
    (hinj : ∀ c r c2 r2 : Int,
      w.unconvert_coords c r = w.unconvert_coords c2 r2 → c = c2 ∧ r = r2) :
    (∀ t ∈ get_chunks_in_range w colstart colend rowstart rowend,
      rowstart - 16 ≤ t.2.1 ∧ t.2.1 ≤ rowend
      ∧ colstart ≤ t.1 ∧ t.1 ≤ colend
      ∧ t.2.1 % 2 = t.1 % 2
      ∧ w.unconvert_coords t.1 t.2.1 = (t.2.2.1, t.2.2.2.1)
      ∧ (w.regionfiles (Int.fdiv t.2.2.1 32, Int.fdiv t.2.2.2.1 32)).c
          = some t.2.2.2.2
      ∧ (w.regionfiles (Int.fdiv t.2.2.1 32, Int.fdiv t.2.2.2.1 32)).chunkExists
          t.2.2.1 t.2.2.2.1 = true)
    ∧ ((get_chunks_in_range w colstart colend rowstart rowend).map
        (fun t => (t.2.2.1, t.2.2.2.1))).Nodup := by
  constructor
  · intro t ht
    simp only [get_chunks_in_range, List.mem_flatten, List.mem_map] at ht
    obtain ⟨block, ⟨row, hrow, hblock⟩, htb⟩ := ht
    subst hblock
    obtain ⟨hcol, h2, h3, h4, h5, h6⟩ := chunkRow_mem w colstart colend row t htb
    rw [intRange_mem] at hrow hcol
    subst h2
    exact ⟨by omega, by omega, by omega, by omega, by omega, h4, h5, h6⟩
  · rw [List.Nodup, List.pairwise_map]
    unfold get_chunks_in_range
    rw [List.pairwise_flatten]
    constructor
    · intro block hb
      obtain ⟨row, _, hblock⟩ := List.mem_map.mp hb
      subst hblock
      apply pairwise_filterMap_trans (chunkCell w row) _ (intRange_nodup _ _)
      intro a b c d hab hfa hfb
      obtain ⟨ha1, _, _, ha4, _, _⟩ := chunkCell_some w row a c hfa
      obtain ⟨hb1, _, _, hb4, _, _⟩ := chunkCell_some w row b d hfb
      subst ha1
      subst hb1
      intro hcd
      have hcd2 : (c.2.2.1, c.2.2.2.1) = (d.2.2.1, d.2.2.2.1) := hcd
      rw [hcd2] at ha4
      rw [← hb4] at ha4
      exact hab (hinj _ _ _ _ ha4).1
    · have hnd := intRange_nodup (rowstart - 16) (rowend + 1)
      apply List.Pairwise.map (chunkRow w colstart colend)
        (R := fun r1 r2 : Int => r1 ≠ r2)
      · intro r1 r2 hr x hx y hy
        obtain ⟨_, hx2, _, hx4, _, _⟩ := chunkRow_mem w colstart colend r1 x hx
        obtain ⟨_, hy2, _, hy4, _, _⟩ := chunkRow_mem w colstart colend r2 y hy
        intro hxy
        have hxy2 : (x.2.2.1, x.2.2.2.1) = (y.2.2.1, y.2.2.2.1) := hxy
        rw [hxy2] at hx4
        rw [← hy4] at hx4
        exact hr (hinj _ _ _ _ hx4).2
      · exact hnd

theorem get_chunks_in_range_spec_witness :
    (∀ c r c2 r2 : Int,
      wTest.unconvert_coords c r = wTest.unconvert_coords c2 r2 → c = c2 ∧ r = r2)
    ∧ ((∀ t ∈ get_chunks_in_range wTest 0 1 0 1,
        (0 : Int) - 16 ≤ t.2.1 ∧ t.2.1 ≤ 1
        ∧ (0 : Int) ≤ t.1 ∧ t.1 ≤ 1
        ∧ t.2.1 % 2 = t.1 % 2
        ∧ wTest.unconvert_coords t.1 t.2.1 = (t.2.2.1, t.2.2.2.1)
        ∧ (wTest.regionfiles (Int.fdiv t.2.2.1 32, Int.fdiv t.2.2.2.1 32)).c
            = some t.2.2.2.2
        ∧ (wTest.regionfiles (Int.fdiv t.2.2.1 32, Int.fdiv t.2.2.2.1 32)).chunkExists
            t.2.2.1 t.2.2.2.1 = true)
      ∧ ((get_chunks_in_range wTest 0 1 0 1).map
          (fun t => (t.2.2.1, t.2.2.2.1))).Nodup) := by
  have hinj : ∀ c r c2 r2 : Int,
      wTest.unconvert_coords c r = wTest.unconvert_coords c2 r2 → c = c2 ∧ r = r2 := by
    intro c r c2 r2 h
    unfold wTest at h
    simp only [Prod.mk.injEq] at h
    exact h
  exact ⟨hinj, get_chunks_in_range_spec wTest 0 1 0 1 hinj⟩

theorem timedDrain_spec_witness :
    (0 : Nat) + 1 ≤ 5
    ∧ (timedDrain 16 ⟨[3, 4], 1, 0, []⟩ 5).results = [3, 4]
    ∧ (timedDrain 16 ⟨[3, 4], 1, 0, []⟩ 5).complete = 1
    ∧ (timedDrain 16 ⟨[3, 4], 1, 0, []⟩ 5).timestamp = 5 := by
  have h := timedDrain_spec 16 ⟨[3, 4], 1, 0, []⟩ 5 (by decide)
  have h2 := h.2.1 (by decide)
  exact ⟨by decide, h2.1, h2.2, h.2.2⟩

theorem queue_depth_bound_witness :
    initState.results.length ≤ baseDrainTrigger 16
    ∧ (runLevelLoop 16 (baseDrainTrigger 16) (baseDrainTarget 16)
        render_worldtile_batch [] initState ⟨[]⟩).1.results.length
        ≤ baseDrainTrigger 16 := by
  have h := queue_depth_bound 16 [] render_worldtile_batch initState ⟨[]⟩ (by decide)
  exact ⟨by decide, h.1⟩

theorem batchSize_spec_witness : (1 : Nat) ≤ 2 ∧ 10 ≤ batchSize 2 :=
  ⟨by decide, batchSize_spec.1 2 (by decide)⟩

theorem go_root_phase_witness :
    ([qtTest] : List Quadtree) ≠ []
    ∧ ∃ pre : List Event,
        go [qtTest] ⟨[]⟩ = pre ++ [Event.poolClose, Event.poolJoin]
            ++ (List.range 1).map Event.renderRoot
        ∧ (∀ e ∈ pre, SchedEv e)
        ∧ countSubmits pre = countResolves pre
        ∧ (∀ i, i < 1 →
            ((go [qtTest] ⟨[]⟩).filter (fun e => e = Event.renderRoot i)).length = 1) := by
  refine ⟨by simp, ?_⟩
  exact go_root_phase [qtTest] ⟨[]⟩ (by simp)

theorem level_totals_witness :
    initState.results = []
    ∧ (goInnerLevel 10 1 [qtTest] initState ⟨[]⟩).1.complete
        = (([qtTest].filter fun q => 1 ≤ q.p).map
            fun q => (q.innertiles 1).length).sum :=
  ⟨rfl, (level_totals 10 [qtTest] ⟨[]⟩ 1 initState).2.2.2.1 rfl⟩

end RN

